import Mathlib

/-!
Shallow embedding of `programs/stakingprototype/src/lib.rs` (Anchor staking
program).  u64 values are modelled as `Nat` with explicit `< 2 ^ 64` bounds at
every checked operation; i64 timestamps are modelled as `Int`.  Fallible
operations return `Except ErrorCode`; a returned error models the transaction
aborting with that error and every account left unchanged (Solana rolls back
the whole transaction on error).  The SPL token transfers are the external
Ledger collaborator (out of scope per the spec) and are not modelled: the
functions return the post-state of the staking accounts and, for
`claim_rewards`, the amount that would be transferred.
-/

namespace Staking

/-- The number of u64 values, `2 ^ 64`; a u64 value `v` satisfies `v < U64LIMIT`. -/
def U64LIMIT : Nat := 2 ^ 64

/-- Rust `u64::checked_add`. -/
def checked_add (a b : Nat) : Option Nat :=
  if a + b < U64LIMIT then some (a + b) else none

/-- Rust `u64::checked_sub`. -/
def checked_sub (a b : Nat) : Option Nat :=
  if b ≤ a then some (a - b) else none

/-- Rust `u64::checked_mul`. -/
def checked_mul (a b : Nat) : Option Nat :=
  if a * b < U64LIMIT then some (a * b) else none

/-- Rust `u64::checked_div` (fails only on a zero divisor). -/
def checked_div (a b : Nat) : Option Nat :=
  if b = 0 then none else some (a / b)

/-- The `ErrorCode` enum of the program (lib.rs lines 429-439). -/
inductive ErrorCode where
  | InsufficientStakeAmount
  | ArithmeticError
  | Unauthorized
  | NoRewardsToClaim
deriving DecidableEq, Repr

/-- The `StakingPool` account (lib.rs lines 401-411).  Pubkeys are modelled as
`Nat`; `0` stands for `Pubkey::default()`. -/
structure StakingPool where
  admin : Nat
  reward_rate : Nat
  total_staked : Nat
  last_update_time : Int
  stake_mint : Nat
  reward_mint : Nat
  pool_stake_account : Nat
  pool_reward_account : Nat
deriving DecidableEq, Repr

/-- The `UserStake` account (lib.rs lines 417-423). -/
structure UserStake where
  owner : Nat
  stake_amount : Nat
  reward_debt : Nat
  last_stake_time : Int
deriving DecidableEq, Repr

/-- Model of `calculate_pending_reward` (lib.rs lines 204-234).  For positive
`time_passed` the i64 `checked_div`/`checked_rem` by 86400 never fail and
truncation toward zero agrees with `Nat` division of `time_passed.toNat`,
so `days = time_passed.toNat / 86400` and
`remainder_seconds = time_passed.toNat % 86400` are computed on `Nat` (the
`unwrap_or(0)` fallbacks are unreachable).  The partial-day branch recomputes
`stake_amount * reward_rate` exactly as the source does. -/
def calculate_pending_reward (stake_amount reward_rate : Nat) (time_passed : Int) :
    Except ErrorCode Nat :=
  if time_passed ≤ 0 ∨ stake_amount = 0 then
    Except.ok 0
  else
    match checked_mul stake_amount reward_rate with
    | none => Except.error ErrorCode.ArithmeticError
    | some m1 =>
      match checked_mul m1 (time_passed.toNat / 86400) with
      | none => Except.error ErrorCode.ArithmeticError
      | some reward =>
        if time_passed.toNat % 86400 > 0 then
          match checked_mul stake_amount reward_rate with
          | none => Except.error ErrorCode.ArithmeticError
          | some p1 =>
            match checked_mul p1 (time_passed.toNat % 86400) with
            | none => Except.error ErrorCode.ArithmeticError
            | some p2 =>
              match checked_div p2 86400 with
              | none => Except.error ErrorCode.ArithmeticError
              | some prorated =>
                match checked_add reward prorated with
                | none => Except.error ErrorCode.ArithmeticError
                | some total => Except.ok total
        else
          Except.ok reward

/-- Pool-level bookkeeping at the top of `stake` (lib.rs lines 38-43):
advance `last_update_time` when time has passed and stake exists. -/
def poolTouch (pool : StakingPool) (now : Int) : StakingPool :=
  if now - pool.last_update_time > 0 ∧ pool.total_staked > 0 then
    { pool with last_update_time := now }
  else pool

/-- Common tail of `stake` (lib.rs lines 74-79): checked increments of
`stake_amount` and pool `total_staked`, and the `last_stake_time` update. -/
def stakeFinish (pool : StakingPool) (us : UserStake) (now : Int) (amount : Nat) :
    Except ErrorCode (StakingPool × UserStake) :=
  match checked_add us.stake_amount amount with
  | none => Except.error ErrorCode.ArithmeticError
  | some new_stake =>
    match checked_add pool.total_staked amount with
    | none => Except.error ErrorCode.ArithmeticError
    | some new_total =>
      Except.ok ({ pool with total_staked := new_total },
                 { us with stake_amount := new_stake, last_stake_time := now })

/-- Model of `stake` (lib.rs lines 32-83).  `user_key` is the pubkey of the signer and `now`
is `Clock::get()?.unix_timestamp`.  The `reward_debt += pending_reward` on
line 59 is an UNCHECKED u64 addition (plain `+=`, unlike the `checked_add`
calls elsewhere); it is modelled as wrapping addition modulo `2 ^ 64`, the
Rust release-profile semantics.  The token transfer (lines 62-72) is the
external Ledger and is not modelled. -/
def stake (pool : StakingPool) (user_stake : UserStake) (user_key : Nat) (now : Int)
    (amount : Nat) : Except ErrorCode (StakingPool × UserStake) :=
  if user_stake.owner = 0 then
    stakeFinish (poolTouch pool now)
      { owner := user_key, stake_amount := 0, reward_debt := 0, last_stake_time := now }
      now amount
  else
    match calculate_pending_reward user_stake.stake_amount (poolTouch pool now).reward_rate
        (now - user_stake.last_stake_time) with
    | Except.error e => Except.error e
    | Except.ok pending_reward =>
      stakeFinish (poolTouch pool now)
        { user_stake with
            reward_debt := (user_stake.reward_debt + pending_reward) % U64LIMIT }
        now amount

/-- Model of `unstake` (lib.rs lines 85-138).  The `require!` on line 97 produces
`InsufficientStakeAmount`; `reward_debt += pending_reward` on line 109 is the
same unchecked (wrapping) addition as in `stake`; the outbound token transfer
(lines 118-134) is external. -/
def unstake (pool : StakingPool) (user_stake : UserStake) (now : Int) (amount : Nat) :
    Except ErrorCode (StakingPool × UserStake) :=
  if user_stake.stake_amount ≥ amount then
    match calculate_pending_reward user_stake.stake_amount pool.reward_rate
        (now - user_stake.last_stake_time) with
    | Except.error e => Except.error e
    | Except.ok pending_reward =>
      match checked_sub user_stake.stake_amount amount with
      | none => Except.error ErrorCode.ArithmeticError
      | some new_stake =>
        match checked_sub pool.total_staked amount with
        | none => Except.error ErrorCode.ArithmeticError
        | some new_total =>
          Except.ok ({ pool with total_staked := new_total },
                     { user_stake with
                         reward_debt :=
                           (user_stake.reward_debt + pending_reward) % U64LIMIT,
                         stake_amount := new_stake,
                         last_stake_time := now })
  else
    Except.error ErrorCode.InsufficientStakeAmount

/-- Model of `claim_rewards` (lib.rs lines 140-187).  On success the returned `Nat` is
`total_reward`, the amount the program transfers from the pool reward account
to the user (lines 180-183). -/
def claim_rewards (pool : StakingPool) (user_stake : UserStake) (now : Int) :
    Except ErrorCode (StakingPool × UserStake × Nat) :=
  match calculate_pending_reward user_stake.stake_amount pool.reward_rate
      (now - user_stake.last_stake_time) with
  | Except.error e => Except.error e
  | Except.ok pending_reward =>
    match checked_add user_stake.reward_debt pending_reward with
    | none => Except.error ErrorCode.ArithmeticError
    | some total_reward =>
      if total_reward > 0 then
        Except.ok (pool,
          { user_stake with reward_debt := 0, last_stake_time := now },
          total_reward)
      else
        Except.error ErrorCode.NoRewardsToClaim

/-- Model of `update_reward_rate` (lib.rs lines 189-201). -/
def update_reward_rate (pool : StakingPool) (admin_key : Nat) (new_rate : Nat) :
    Except ErrorCode StakingPool :=
  if admin_key = pool.admin then
    Except.ok { pool with reward_rate := new_rate }
  else
    Except.error ErrorCode.Unauthorized

/-- The pool produced by `initialize` (lib.rs lines 12-30): `total_staked = 0`,
the other fields copied from the inputs. -/
def initPool (admin reward_rate : Nat) (now : Int) (sm rm psa pra : Nat) : StakingPool :=
  { admin := admin, reward_rate := reward_rate, total_staked := 0,
    last_update_time := now, stake_mint := sm, reward_mint := rm,
    pool_stake_account := psa, pool_reward_account := pra }

/-- A fresh (zeroed) `UserStake` account, as the Anchor `init_if_needed` flow hands
the program before line 46 runs: all fields zero, `owner = Pubkey::default()`. -/
def defaultUserStake : UserStake :=
  { owner := 0, stake_amount := 0, reward_debt := 0, last_stake_time := 0 }

/-- Look up the stake record of the user with pubkey `key` (the PDA derived
from `b"user-stake"` and the key of the user): first record whose `owner` is `key`. -/
def lookupUser : List UserStake → Nat → Option UserStake
  | [], _ => none
  | u :: rest, key => if u.owner = key then some u else lookupUser rest key

/-- Store back the stake record of user `key`: replace the first record whose
`owner` is `key`, or append the record if the user had none. -/
def updateUser : List UserStake → Nat → UserStake → List UserStake
  | [], _, u' => [u']
  | u :: rest, key, u' =>
    if u.owner = key then u' :: rest else u :: updateUser rest key u'

/-- Global on-chain state for multi-user executions: the singleton pool and
the collection of per-user stake accounts. -/
structure GState where
  pool : StakingPool
  users : List UserStake
deriving DecidableEq, Repr

/-- A stake or unstake instruction: pubkey of the acting user, clock time, amount. -/
inductive Op where
  | stakeOp (key : Nat) (now : Int) (amount : Nat)
  | unstakeOp (key : Nat) (now : Int) (amount : Nat)
deriving DecidableEq, Repr

/-- Pubkey of the acting user of an instruction. -/
def Op.key : Op → Nat
  | .stakeOp k _ _ => k
  | .unstakeOp k _ _ => k

/-- Execute one instruction against the global state.  `stake` creates the
user account if absent (Anchor `init_if_needed`, zero-initialized);
`unstake` requires an existing account whose `owner` matches the signer
(the account constraints of `Unstake`), failing with `Unauthorized` as the
`constraint user_stake.owner == user.key() @ ErrorCode::Unauthorized` does. -/
def execOp (s : GState) : Op → Except ErrorCode GState
  | .stakeOp key now amount =>
    match stake s.pool ((lookupUser s.users key).getD defaultUserStake) key now amount with
    | Except.error e => Except.error e
    | Except.ok (p', u') => Except.ok ⟨p', updateUser s.users key u'⟩
  | .unstakeOp key now amount =>
    match lookupUser s.users key with
    | none => Except.error ErrorCode.Unauthorized
    | some u =>
      match unstake s.pool u now amount with
      | Except.error e => Except.error e
      | Except.ok (p', u') => Except.ok ⟨p', updateUser s.users key u'⟩

/-- Execute a sequence of instructions; any failure aborts the sequence. -/
def execOps (s : GState) : List Op → Except ErrorCode GState
  | [] => Except.ok s
  | op :: rest =>
    match execOp s op with
    | Except.error e => Except.error e
    | Except.ok s' => execOps s' rest

/-- Sum of `stake_amount` over all user stake records. -/
def sumStakes (l : List UserStake) : Nat :=
  (l.map (fun u => u.stake_amount)).sum

theorem checked_add_some {a b c : Nat} (h : checked_add a b = some c) :
    c = a + b ∧ a + b < U64LIMIT := by
  unfold checked_add at h
  split at h
  · exact ⟨(Option.some.injEq _ _ ▸ h).symm, by assumption⟩
  · cases h

theorem checked_add_none {a b : Nat} (h : checked_add a b = none) :
    ¬ a + b < U64LIMIT := by
  unfold checked_add at h
  split at h
  · cases h
  · assumption

theorem checked_sub_some {a b c : Nat} (h : checked_sub a b = some c) :
    b ≤ a ∧ c = a - b := by
  unfold checked_sub at h
  split at h
  · exact ⟨by assumption, (Option.some.injEq _ _ ▸ h).symm⟩
  · cases h

theorem checked_mul_some {a b c : Nat} (h : checked_mul a b = some c) :
    c = a * b ∧ a * b < U64LIMIT := by
  unfold checked_mul at h
  split at h
  · exact ⟨(Option.some.injEq _ _ ▸ h).symm, by assumption⟩
  · cases h

theorem poolTouch_total_staked (pool : StakingPool) (now : Int) :
    (poolTouch pool now).total_staked = pool.total_staked := by
  unfold poolTouch; split <;> rfl

theorem poolTouch_reward_rate (pool : StakingPool) (now : Int) :
    (poolTouch pool now).reward_rate = pool.reward_rate := by
  unfold poolTouch; split <;> rfl

theorem calculate_pending_reward_error {a r : Nat} {t : Int} {e : ErrorCode}
    (h : calculate_pending_reward a r t = Except.error e) :
    e = ErrorCode.ArithmeticError := by
  unfold calculate_pending_reward at h
  split at h
  · cases h
  · cases h1 : checked_mul a r with
    | none => rw [h1] at h; simp at h; exact h.symm
    | some m1 =>
      rw [h1] at h
      simp only [] at h
      cases h2 : checked_mul m1 (t.toNat / 86400) with
      | none => rw [h2] at h; simp at h; exact h.symm
      | some reward =>
        rw [h2] at h
        simp only [] at h
        by_cases h3 : t.toNat % 86400 > 0
        · rw [if_pos h3] at h
          cases h4 : checked_mul m1 (t.toNat % 86400) with
          | none => rw [h4] at h; simp at h; exact h.symm
          | some p2 =>
            rw [h4] at h
            simp only [checked_div] at h
            rw [if_neg (by norm_num)] at h
            simp only [] at h
            cases h5 : checked_add reward (p2 / 86400) with
            | none => rw [h5] at h; simp at h; exact h.symm
            | some total => rw [h5] at h; simp at h
        · rw [if_neg h3] at h
          cases h

theorem pending_reward_zero_aux (a r : Nat) (t : Int) (h : t ≤ 0 ∨ a = 0) :
    calculate_pending_reward a r t = Except.ok 0 := by
  unfold calculate_pending_reward
  rw [if_pos h]

/-- C9: `calculate_pending_reward` returns 0 without raising any error whenever
the elapsed time is non-positive or the stake amount is 0 (lib.rs lines
205-207). -/
theorem calculate_pending_reward_zero (a r : Nat) (t : Int) (h : t ≤ 0 ∨ a = 0) :
    calculate_pending_reward a r t = Except.ok 0 :=
  pending_reward_zero_aux a r t h

theorem calculate_pending_reward_zero_witness :
    calculate_pending_reward 0 7 5 = Except.ok 0 ∧
    calculate_pending_reward 3 7 (-2) = Except.ok 0 :=
  ⟨calculate_pending_reward_zero 0 7 5 (Or.inr rfl),
   calculate_pending_reward_zero 3 7 (-2) (Or.inl (by decide))⟩

/-- C8: `pendingReward(1000, 5, 86400) = 5000` and
`pendingReward(1000, 5, 43200) = 2500`: the multiplication happens before the
division by 86400, so the half-day reward is exactly 2500. -/
theorem pending_reward_concrete_values :
    calculate_pending_reward 1000 5 86400 = Except.ok 5000 ∧
    calculate_pending_reward 1000 5 43200 = Except.ok 2500 := ⟨rfl, rfl⟩

/-- C1: the spec says the reward-debt settlement in `stake` and `unstake` is
overflow-checked and aborts with `ArithmeticError` when
`reward_debt + pendingReward` exceeds the maximum u64 value.  In the code the
additions (lib.rs lines 59 and 109) are plain unchecked `+=`, unlike every
other arithmetic step: at `reward_debt = 2 ^ 64 - 1` with pending reward 1
both operations succeed and `reward_debt` wraps to 0 instead of aborting. -/
theorem reward_debt_settlement_unchecked :
    stake ⟨7, 1, 1, 0, 0, 0, 0, 0⟩ ⟨1, 1, 2 ^ 64 - 1, 0⟩ 1 86400 0 =
      Except.ok (⟨7, 1, 1, 86400, 0, 0, 0, 0⟩, ⟨1, 1, 0, 86400⟩) ∧
    unstake ⟨7, 1, 1, 0, 0, 0, 0, 0⟩ ⟨1, 1, 2 ^ 64 - 1, 0⟩ 86400 0 =
      Except.ok (⟨7, 1, 1, 0, 0, 0, 0, 0⟩, ⟨1, 1, 0, 86400⟩) := ⟨rfl, rfl⟩

/-- C3: for non-negative elapsed time with no overflow (the computation on the
full elapsed time succeeds), the pending reward decomposes as the reward for
the sub-day remainder plus `amount * rate * (elapsed div 86400)`. -/
theorem pending_reward_decomposition (a r e v : Nat)
    (h : calculate_pending_reward a r (e : Int) = Except.ok v) :
    ∃ w, calculate_pending_reward a r ((e % 86400 : Nat) : Int) = Except.ok w ∧
      v = w + a * r * (e / 86400) := by
  by_cases hz : (e : Int) ≤ 0 ∨ a = 0
  · rw [pending_reward_zero_aux a r _ hz] at h
    injection h with h2
    subst h2
    rcases hz with hz | hz
    · have he0 : e = 0 := by exact_mod_cast le_antisymm hz (Int.natCast_nonneg e)
      subst he0
      exact ⟨0, pending_reward_zero_aux a r _ (Or.inl (by norm_num)), by simp⟩
    · exact ⟨0, pending_reward_zero_aux a r _ (Or.inr hz), by simp [hz]⟩
  · have hz2 := hz
    push_neg at hz2
    obtain ⟨hepos, ha⟩ := hz2
    unfold calculate_pending_reward at h
    rw [if_neg hz] at h
    simp only [Int.toNat_natCast] at h
    cases h1 : checked_mul a r with
    | none => rw [h1] at h; cases h
    | some m1 =>
      rw [h1] at h
      simp only [] at h
      obtain ⟨hm1, hm1lt⟩ := checked_mul_some h1
      cases h2 : checked_mul m1 (e / 86400) with
      | none => rw [h2] at h; cases h
      | some reward =>
        rw [h2] at h
        simp only [] at h
        obtain ⟨hrw, hrwlt⟩ := checked_mul_some h2
        by_cases h3 : e % 86400 > 0
        · rw [if_pos h3] at h
          cases h4 : checked_mul m1 (e % 86400) with
          | none => rw [h4] at h; cases h
          | some p2 =>
            rw [h4] at h
            simp only [checked_div] at h
            rw [if_neg (by norm_num)] at h
            simp only [] at h
            obtain ⟨hp2, hp2lt⟩ := checked_mul_some h4
            cases h5 : checked_add reward (p2 / 86400) with
            | none => rw [h5] at h; cases h
            | some total =>
              rw [h5] at h
              injection h with h6
              obtain ⟨htotal, htlt⟩ := checked_add_some h5
              have hg : ¬(((e % 86400 : Nat) : Int) ≤ 0 ∨ a = 0) := by
                push_neg
                exact ⟨by exact_mod_cast h3, ha⟩
              refine ⟨p2 / 86400, ?_, ?_⟩
              · unfold calculate_pending_reward
                rw [if_neg hg]
                simp only [Int.toNat_natCast]
                have hd0 : e % 86400 / 86400 = 0 :=
                  Nat.div_eq_of_lt (Nat.mod_lt _ (by norm_num))
                have hm0 : e % 86400 % 86400 = e % 86400 :=
                  Nat.mod_eq_of_lt (Nat.mod_lt _ (by norm_num))
                rw [hd0, hm0, h1]
                simp only []
                have hcm0 : checked_mul m1 0 = some 0 := by
                  unfold checked_mul
                  rw [Nat.mul_zero]
                  exact if_pos (by unfold U64LIMIT; positivity)
                rw [hcm0]
                simp only []
                rw [if_pos h3, h4]
                simp only [checked_div]
                rw [if_neg (by norm_num)]
                simp only []
                have hp2ltv : p2 < U64LIMIT := by rw [hp2]; exact hp2lt
                have hca : checked_add 0 (p2 / 86400) = some (p2 / 86400) := by
                  unfold checked_add
                  rw [Nat.zero_add]
                  exact if_pos (lt_of_le_of_lt (Nat.div_le_self _ _) hp2ltv)
                rw [hca]
              · subst h6
                subst htotal
                subst hrw
                subst hm1
                omega
        · rw [if_neg h3] at h
          injection h with h6
          have h30 : e % 86400 = 0 := by omega
          refine ⟨0, ?_, ?_⟩
          · exact pending_reward_zero_aux a r _ (Or.inl (by rw [h30]; simp))
          · subst h6
            rw [Nat.zero_add, hrw, hm1]

theorem pending_reward_decomposition_witness :
    ∃ w, calculate_pending_reward 1000 5 ((90000 % 86400 : Nat) : Int) = Except.ok w ∧
      5208 = w + 1000 * 5 * (90000 / 86400) :=
  pending_reward_decomposition 1000 5 90000 5208 rfl

/-- C7: `update_reward_rate` fails with `Unauthorized` for any caller other
than `pool.admin` (leaving the pool unchanged, as the aborted transaction
changes no account), and for the admin overwrites `reward_rate` with
`new_rate`, changing no other field. -/
theorem update_reward_rate_spec (pool : StakingPool) (caller new_rate : Nat) :
    (caller ≠ pool.admin →
      update_reward_rate pool caller new_rate = Except.error ErrorCode.Unauthorized) ∧
    (caller = pool.admin →
      update_reward_rate pool caller new_rate =
        Except.ok { pool with reward_rate := new_rate }) := by
  constructor <;> intro h <;> simp [update_reward_rate, h]

theorem update_reward_rate_spec_witness :
    update_reward_rate (initPool 4 1 0 0 0 0 0) 5 9 = Except.error ErrorCode.Unauthorized ∧
    update_reward_rate (initPool 4 1 0 0 0 0 0) 4 9 =
      Except.ok { initPool 4 1 0 0 0 0 0 with reward_rate := 9 } :=
  ⟨(update_reward_rate_spec (initPool 4 1 0 0 0 0 0) 5 9).1 (by decide),
   (update_reward_rate_spec (initPool 4 1 0 0 0 0 0) 4 9).2 rfl⟩

/-- C6: a successful `claim_rewards` returns the pool completely unchanged and
leaves the `stake_amount` of the caller at its pre-call value. -/
theorem claim_rewards_frame (pool : StakingPool) (u : UserStake) (now : Int)
    (p2 : StakingPool) (u2 : UserStake) (amt : Nat)
    (h : claim_rewards pool u now = Except.ok (p2, u2, amt)) :
    p2 = pool ∧ u2.stake_amount = u.stake_amount := by
  unfold claim_rewards at h
  cases hc : calculate_pending_reward u.stake_amount pool.reward_rate
      (now - u.last_stake_time) with
  | error e => rw [hc] at h; cases h
  | ok pr =>
    rw [hc] at h
    simp only [] at h
    cases ha : checked_add u.reward_debt pr with
    | none => rw [ha] at h; cases h
    | some total =>
      rw [ha] at h
      simp only [] at h
      split at h
      · simp only [Except.ok.injEq, Prod.mk.injEq] at h
        obtain ⟨hp, hu, -⟩ := h
        subst hp; subst hu
        exact ⟨rfl, rfl⟩
      · cases h

theorem claim_rewards_frame_witness :
    initPool 7 1 0 0 0 0 0 = initPool 7 1 0 0 0 0 0 ∧
    (UserStake.mk 1 3 0 0).stake_amount = (UserStake.mk 1 3 5 0).stake_amount :=
  claim_rewards_frame (initPool 7 1 0 0 0 0 0) ⟨1, 3, 5, 0⟩ 0
    (initPool 7 1 0 0 0 0 0) ⟨1, 3, 0, 0⟩ 5 rfl

/-- C5: `claim_rewards` fails with `NoRewardsToClaim` exactly when the settled
total (`reward_debt` plus the pending reward since `last_stake_time`) is 0; on
that failure the transaction aborts (no state change, no transfer attempted,
as an error result carries no post-state), and on success `reward_debt` is
reset to 0 and `last_stake_time` set to `now`. -/
theorem claim_rewards_spec (pool : StakingPool) (u : UserStake) (now : Int) :
    (claim_rewards pool u now = Except.error ErrorCode.NoRewardsToClaim ↔
      ∃ pr, calculate_pending_reward u.stake_amount pool.reward_rate
          (now - u.last_stake_time) = Except.ok pr ∧ u.reward_debt + pr = 0) ∧
    (∀ p2 u2 amt, claim_rewards pool u now = Except.ok (p2, u2, amt) →
      u2.reward_debt = 0 ∧ u2.last_stake_time = now) := by
  unfold claim_rewards
  cases hc : calculate_pending_reward u.stake_amount pool.reward_rate
      (now - u.last_stake_time) with
  | error e =>
    have he := calculate_pending_reward_error hc
    subst he
    simp
  | ok pr =>
    simp only []
    cases ha : checked_add u.reward_debt pr with
    | none =>
      have hge := checked_add_none ha
      simp only []
      constructor
      · constructor
        · intro h; simp at h
        · rintro ⟨pr2, hpr2, hz⟩
          rw [Except.ok.injEq] at hpr2
          subst hpr2
          simp [U64LIMIT] at hge
          omega
      · intro p2 u2 amt h; cases h
    | some total =>
      obtain ⟨htot, hlt⟩ := checked_add_some ha
      subst htot
      simp only []
      by_cases hz : u.reward_debt + pr > 0
      · rw [if_pos hz]
        constructor
        · constructor
          · intro h; cases h
          · rintro ⟨pr2, hpr2, hz2⟩
            rw [Except.ok.injEq] at hpr2
            subst hpr2
            omega
        · intro p2 u2 amt h
          simp only [Except.ok.injEq, Prod.mk.injEq] at h
          obtain ⟨-, hu, -⟩ := h
          subst hu
          exact ⟨rfl, rfl⟩
      · rw [if_neg hz]
        constructor
        · constructor
          · intro _
            exact ⟨pr, rfl, by omega⟩
          · intro _; rfl
        · intro p2 u2 amt h; cases h

theorem claim_rewards_spec_witness :
    claim_rewards (initPool 7 1 0 0 0 0 0) ⟨1, 0, 0, 0⟩ 5 =
      Except.error ErrorCode.NoRewardsToClaim :=
  (claim_rewards_spec (initPool 7 1 0 0 0 0 0) ⟨1, 0, 0, 0⟩ 5).1.mpr ⟨0, rfl, rfl⟩

/-- C4 counterexample: a user record with `stake_amount = 2 ^ 63` under
`reward_rate = 2 ^ 63` after one elapsed day.  Unstaking the full stake
(`amount = stake_amount`) does not succeed: the `checked_mul` of the reward
settlement overflows and the call aborts with `ArithmeticError`. -/
theorem unstake_full_stake_arithmetic_error :
    (UserStake.mk 1 (2 ^ 63) 0 0).stake_amount = 2 ^ 63 ∧
    unstake ⟨7, 2 ^ 63, 2 ^ 63, 0, 0, 0, 0, 0⟩ ⟨1, 2 ^ 63, 0, 0⟩ 86400 (2 ^ 63) =
      Except.error ErrorCode.ArithmeticError := ⟨rfl, rfl⟩

/-- C4 (amended): `unstake` with `amount > stake_amount` fails with
`InsufficientStakeAmount` (the aborted transaction changes nothing); with
`amount = stake_amount` it succeeds and leaves `stake_amount = 0`, provided
the reward settlement does not overflow (otherwise the call aborts with
`ArithmeticError`) and `pool.total_staked` covers the amount. -/
theorem unstake_boundary (pool : StakingPool) (u : UserStake) (now : Int) (amount : Nat) :
    (u.stake_amount < amount →
      unstake pool u now amount = Except.error ErrorCode.InsufficientStakeAmount) ∧
    (amount = u.stake_amount →
      (∃ pr, calculate_pending_reward u.stake_amount pool.reward_rate
          (now - u.last_stake_time) = Except.ok pr) →
      amount ≤ pool.total_staked →
      ∃ p2 u2, unstake pool u now amount = Except.ok (p2, u2) ∧
        u2.stake_amount = 0) := by
  constructor
  · intro hlt
    unfold unstake
    rw [if_neg (by omega)]
  · rintro rfl ⟨pr, hpr⟩ htot
    unfold unstake
    rw [if_pos (le_refl u.stake_amount), hpr]
    simp only [checked_sub, Nat.sub_self, le_refl, if_pos, if_true]
    rw [if_pos htot]
    exact ⟨_, _, rfl, rfl⟩

theorem unstake_boundary_witness :
    unstake (initPool 7 1 0 0 0 0 0) ⟨1, 5, 0, 0⟩ 10 6 =
      Except.error ErrorCode.InsufficientStakeAmount ∧
    ∃ p2 u2, unstake ⟨7, 1, 5, 0, 0, 0, 0, 0⟩ ⟨1, 5, 0, 0⟩ 10 5 =
        Except.ok (p2, u2) ∧ u2.stake_amount = 0 :=
  ⟨(unstake_boundary (initPool 7 1 0 0 0 0 0) ⟨1, 5, 0, 0⟩ 10 6).1 (by decide),
   (unstake_boundary ⟨7, 1, 5, 0, 0, 0, 0, 0⟩ ⟨1, 5, 0, 0⟩ 10 5).2 rfl ⟨0, rfl⟩
     (by decide)⟩

/-- C10 counterexample: with `stake_amount = reward_rate = 2 ^ 63` and one
elapsed day, `stake(0)` IS rejected: the reward settlement overflows and the
call aborts with `ArithmeticError`, so a zero-amount stake on an existing
record is not unconditionally accepted. -/
theorem stake_zero_amount_overflow :
    stake ⟨7, 2 ^ 63, 2 ^ 63, 0, 0, 0, 0, 0⟩ ⟨1, 2 ^ 63, 0, 0⟩ 1 86400 0 =
      Except.error ErrorCode.ArithmeticError := rfl

/-- C10 (amended): the code has no zero-amount check in `stake`.  For an
existing record (`owner` nonzero), provided the reward settlement does not
overflow (otherwise the call aborts with `ArithmeticError`) and the settled
sum stays below `2 ^ 64` (the unchecked `+=` wraps otherwise), `stake(0)`
settles the pending reward into `reward_debt` as an exact sum, advances
`last_stake_time` to `now`, and leaves `stake_amount` and pool `total_staked`
unchanged. -/
theorem stake_zero_amount (pool : StakingPool) (u : UserStake) (key : Nat)
    (now : Int) (pr : Nat)
    (howner : u.owner ≠ 0)
    (hpr : calculate_pending_reward u.stake_amount pool.reward_rate
      (now - u.last_stake_time) = Except.ok pr)
    (hdebt : u.reward_debt + pr < U64LIMIT)
    (hstake : u.stake_amount < U64LIMIT)
    (htot : pool.total_staked < U64LIMIT) :
    ∃ p2, stake pool u key now 0 = Except.ok (p2,
        { u with reward_debt := u.reward_debt + pr, last_stake_time := now }) ∧
      p2.total_staked = pool.total_staked := by
  unfold stake
  rw [if_neg howner, poolTouch_reward_rate, hpr]
  simp only []
  rw [Nat.mod_eq_of_lt hdebt]
  unfold stakeFinish
  simp only [checked_add, Nat.add_zero, poolTouch_total_staked]
  rw [if_pos hstake, if_pos htot]
  exact ⟨_, rfl, rfl⟩

theorem stake_zero_amount_witness :
    ∃ p2, stake (initPool 7 1 0 0 0 0 0) ⟨1, 10, 3, 0⟩ 2 100 0 =
        Except.ok (p2, ⟨1, 10, 3, 100⟩) ∧
      p2.total_staked = 0 :=
  stake_zero_amount (initPool 7 1 0 0 0 0 0) ⟨1, 10, 3, 0⟩ 2 100 0
    (by decide) rfl (by decide) (by decide) (by decide)

theorem lookupUser_owner {l : List UserStake} {key : Nat} {r : UserStake}
    (h : lookupUser l key = some r) : r.owner = key := by
  induction l with
  | nil => cases h
  | cons a t ih =>
    unfold lookupUser at h
    split at h
    · injection h with h2; subst h2; assumption
    · exact ih h

theorem sumStakes_cons (a : UserStake) (t : List UserStake) :
    sumStakes (a :: t) = a.stake_amount + sumStakes t := by
  simp [sumStakes]

theorem sumStakes_update_found {l : List UserStake} {key : Nat} {r : UserStake}
    (r2 : UserStake) (h : lookupUser l key = some r) :
    sumStakes (updateUser l key r2) + r.stake_amount
      = sumStakes l + r2.stake_amount := by
  induction l with
  | nil => cases h
  | cons a t ih =>
    unfold lookupUser at h
    simp only [updateUser]
    split at h
    · injection h with h2; subst h2
      rw [if_pos ‹a.owner = key›, sumStakes_cons, sumStakes_cons]
      omega
    · rw [if_neg ‹¬a.owner = key›, sumStakes_cons, sumStakes_cons]
      have := ih h
      omega

theorem sumStakes_update_none {l : List UserStake} {key : Nat}
    (r2 : UserStake) (h : lookupUser l key = none) :
    sumStakes (updateUser l key r2) = sumStakes l + r2.stake_amount := by
  induction l with
  | nil => simp [updateUser, sumStakes]
  | cons a t ih =>
    unfold lookupUser at h
    split at h
    · cases h
    · simp only [updateUser]
      rw [if_neg ‹¬a.owner = key›, sumStakes_cons, sumStakes_cons, ih h]
      omega

theorem stakeFinish_ok {pool : StakingPool} {us : UserStake} {now : Int}
    {amount : Nat} {p2 : StakingPool} {u2 : UserStake}
    (h : stakeFinish pool us now amount = Except.ok (p2, u2)) :
    p2.total_staked = pool.total_staked + amount ∧
    u2.stake_amount = us.stake_amount + amount := by
  unfold stakeFinish at h
  cases h1 : checked_add us.stake_amount amount with
  | none => rw [h1] at h; cases h
  | some ns =>
    rw [h1] at h
    simp only [] at h
    cases h2 : checked_add pool.total_staked amount with
    | none => rw [h2] at h; cases h
    | some nt =>
      rw [h2] at h
      simp only [Except.ok.injEq, Prod.mk.injEq] at h
      obtain ⟨hp, hu⟩ := h
      subst hp; subst hu
      obtain ⟨h1e, -⟩ := checked_add_some h1
      obtain ⟨h2e, -⟩ := checked_add_some h2
      exact ⟨by simp [h2e], by simp [h1e]⟩

theorem stake_ok {pool : StakingPool} {u : UserStake} {key : Nat} {now : Int}
    {amount : Nat} {p2 : StakingPool} {u2 : UserStake}
    (h : stake pool u key now amount = Except.ok (p2, u2)) :
    p2.total_staked = pool.total_staked + amount ∧
    u2.stake_amount = (if u.owner = 0 then 0 else u.stake_amount) + amount := by
  unfold stake at h
  by_cases ho : u.owner = 0
  · rw [if_pos ho] at h
    obtain ⟨hp, hu⟩ := stakeFinish_ok h
    rw [poolTouch_total_staked] at hp
    rw [if_pos ho]
    exact ⟨hp, hu⟩
  · rw [if_neg ho] at h
    cases hc : calculate_pending_reward u.stake_amount (poolTouch pool now).reward_rate
        (now - u.last_stake_time) with
    | error e => rw [hc] at h; cases h
    | ok pr =>
      rw [hc] at h
      simp only [] at h
      obtain ⟨hp, hu⟩ := stakeFinish_ok h
      rw [poolTouch_total_staked] at hp
      rw [if_neg ho]
      exact ⟨hp, by simpa using hu⟩

theorem unstake_ok {pool : StakingPool} {u : UserStake} {now : Int}
    {amount : Nat} {p2 : StakingPool} {u2 : UserStake}
    (h : unstake pool u now amount = Except.ok (p2, u2)) :
    amount ≤ u.stake_amount ∧ amount ≤ pool.total_staked ∧
    p2.total_staked = pool.total_staked - amount ∧
    u2.stake_amount = u.stake_amount - amount := by
  unfold unstake at h
  split at h
  · cases hc : calculate_pending_reward u.stake_amount pool.reward_rate
        (now - u.last_stake_time) with
    | error e => rw [hc] at h; cases h
    | ok pr =>
      rw [hc] at h
      simp only [] at h
      cases h1 : checked_sub u.stake_amount amount with
      | none => rw [h1] at h; cases h
      | some ns =>
        rw [h1] at h
        simp only [] at h
        cases h2 : checked_sub pool.total_staked amount with
        | none => rw [h2] at h; cases h
        | some nt =>
          rw [h2] at h
          simp only [Except.ok.injEq, Prod.mk.injEq] at h
          obtain ⟨hp, hu⟩ := h
          subst hp; subst hu
          obtain ⟨hle1, he1⟩ := checked_sub_some h1
          obtain ⟨hle2, he2⟩ := checked_sub_some h2
          exact ⟨hle1, hle2, by simp [he2], by simp [he1]⟩
  · cases h

theorem execOp_preserves {s s2 : GState} {op : Op} (hk : op.key ≠ 0)
    (hinv : s.pool.total_staked = sumStakes s.users)
    (h : execOp s op = Except.ok s2) :
    s2.pool.total_staked = sumStakes s2.users := by
  cases op with
  | stakeOp key now amount =>
    simp only [execOp] at h
    cases hl : lookupUser s.users key with
    | none =>
      rw [hl] at h
      simp only [Option.getD_none] at h
      cases hs : stake s.pool defaultUserStake key now amount with
      | error e => rw [hs] at h; cases h
      | ok pu =>
        obtain ⟨p2, u2⟩ := pu
        rw [hs] at h
        simp only [Except.ok.injEq] at h
        subst h
        obtain ⟨hp, hu⟩ := stake_ok hs
        simp [defaultUserStake] at hu
        have hsum := sumStakes_update_none u2 hl
        show p2.total_staked = sumStakes (updateUser s.users key u2)
        omega
    | some r =>
      rw [hl] at h
      simp only [Option.getD_some] at h
      cases hs : stake s.pool r key now amount with
      | error e => rw [hs] at h; cases h
      | ok pu =>
        obtain ⟨p2, u2⟩ := pu
        rw [hs] at h
        simp only [Except.ok.injEq] at h
        subst h
        obtain ⟨hp, hu⟩ := stake_ok hs
        have hro : r.owner = key := lookupUser_owner hl
        rw [if_neg (by rw [hro]; exact hk)] at hu
        have hsum := sumStakes_update_found u2 hl
        show p2.total_staked = sumStakes (updateUser s.users key u2)
        omega
  | unstakeOp key now amount =>
    simp only [execOp] at h
    cases hl : lookupUser s.users key with
    | none => rw [hl] at h; cases h
    | some r =>
      rw [hl] at h
      simp only [] at h
      cases hs : unstake s.pool r now amount with
      | error e => rw [hs] at h; cases h
      | ok pu =>
        obtain ⟨p2, u2⟩ := pu
        rw [hs] at h
        simp only [Except.ok.injEq] at h
        subst h
        obtain ⟨hle1, hle2, hp, hu⟩ := unstake_ok hs
        have hsum := sumStakes_update_found u2 hl
        show p2.total_staked = sumStakes (updateUser s.users key u2)
        omega

theorem execOps_preserves {ops : List Op} {s s2 : GState}
    (hk : ∀ op ∈ ops, op.key ≠ 0)
    (hinv : s.pool.total_staked = sumStakes s.users)
    (h : execOps s ops = Except.ok s2) :
    s2.pool.total_staked = sumStakes s2.users := by
  induction ops generalizing s with
  | nil =>
    simp only [execOps, Except.ok.injEq] at h
    subst h; exact hinv
  | cons op rest ih =>
    simp only [execOps] at h
    cases he : execOp s op with
    | error e => rw [he] at h; cases h
    | ok s1 =>
      rw [he] at h
      simp only [] at h
      exact ih (fun o ho => hk o (List.mem_cons_of_mem _ ho))
        (execOp_preserves (hk op (List.mem_cons_self _ _)) hinv he) h

/-- C2: starting from a freshly initialized pool (`total_staked = 0`, no user
records) every sequence of successful `stake`/`unstake` instructions, issued
by any set of users (real signers, so nonzero pubkeys), ends in a state where
`pool.total_staked` equals the sum of `stake_amount` over all user records. -/
theorem total_staked_invariant (adminKey rate : Nat) (t0 : Int)
    (sm rm psa pra : Nat) (ops : List Op) (s2 : GState)
    (hk : ∀ op ∈ ops, op.key ≠ 0)
    (h : execOps ⟨initPool adminKey rate t0 sm rm psa pra, []⟩ ops = Except.ok s2) :
    s2.pool.total_staked = sumStakes s2.users :=
  execOps_preserves hk rfl h

theorem total_staked_invariant_witness :
    (GState.mk ⟨9, 1, 5, 0, 2, 3, 4, 5⟩ [⟨1, 5, 0, 0⟩]).pool.total_staked =
      sumStakes (GState.mk ⟨9, 1, 5, 0, 2, 3, 4, 5⟩ [⟨1, 5, 0, 0⟩]).users :=
  total_staked_invariant 9 1 0 2 3 4 5 [Op.stakeOp 1 0 5] _
    (fun op ho => by
      cases ho with
      | head => decide
      | tail _ ho2 => cases ho2)
    rfl

end Staking
